import Mathlib

/-!
Verification of the engine-communication layer of `gpui-chess`.

This file gives a shallow embedding of the UCI protocol codec
(`src/domain/uci.rs`) and of the engine session model
(`src/models/engine.rs`), and proves the spec's claims about them.

Machine integers (`u32`, `u64`, `i32`) are modelled as `Nat`/`Int` with
explicit range checks in the string-to-number parsers (matching Rust's
`str::parse`, which rejects out-of-range literals); none of the
arithmetic performed by the embedded code can overflow its Rust type on
values those parsers accept, so no wrap-around modelling is needed.
Rust's Unicode notion of whitespace is modelled by Lean's
`Char.isWhitespace` (ASCII whitespace), which agrees with it on every
string the protocol can produce.
-/

namespace GpuiChess

/-! ### String primitives, modelling the Rust standard-library functions -/

/-- Model of `str::split_whitespace` (auxiliary recursion over the
characters, `acc` holds the current word reversed). -/
def wordsAux : List Char → List Char → List String
  | [], acc => if acc = [] then [] else [String.mk acc.reverse]
  | c :: cs, acc =>
    if c.isWhitespace then
      if acc = [] then wordsAux cs [] else String.mk acc.reverse :: wordsAux cs []
    else wordsAux cs (c :: acc)

/-- Model of `str::split_whitespace`: maximal runs of non-whitespace. -/
def splitWs (s : String) : List String := wordsAux s.data []

/-- Model of `str::trim`: drop whitespace from both ends. -/
def strTrim (s : String) : String :=
  String.mk (((s.data.dropWhile Char.isWhitespace).reverse.dropWhile Char.isWhitespace).reverse)

/-- Model of `str::starts_with`. -/
def strStartsWith (s p : String) : Bool := p.data.isPrefixOf s.data

/-- Model of dropping the first `n` characters of a string (used for
`str::strip_prefix`, whose result is the suffix after the prefix). -/
def strDrop (s : String) (n : Nat) : String := String.mk (s.data.drop n)

/-! ### Number parsing, modelling Rust `str::parse` for `u32`/`u64`/`i32` -/

/-- Numeric value of a list of ASCII digits. -/
def digitsVal (l : List Char) : Nat := l.foldl (fun a c => a * 10 + (c.toNat - 48)) 0

/-- Model of `str::parse::<uN>()`: optional leading `+`, at least one
ASCII digit, value strictly below `bound` (the type's `2^N`). -/
def parseUnsigned? (bound : Nat) (s : String) : Option Nat :=
  let ds := match s.data with
    | '+' :: rest => rest
    | cs => cs
  if ds = [] then none
  else if ds.all Char.isDigit then
    if digitsVal ds < bound then some (digitsVal ds) else none
  else none

/-- Model of `str::parse::<u32>()`. -/
def parseU32? (s : String) : Option Nat := parseUnsigned? (2 ^ 32) s

/-- Model of `str::parse::<u64>()`. -/
def parseU64? (s : String) : Option Nat := parseUnsigned? (2 ^ 64) s

/-- Model of `str::parse::<i32>()`: optional sign, at least one digit,
value within `[-2^31, 2^31)`. -/
def parseI32? (s : String) : Option Int :=
  match s.data with
  | '-' :: rest =>
    if rest = [] then none
    else if rest.all Char.isDigit then
      if digitsVal rest ≤ 2 ^ 31 then some (-(Int.ofNat (digitsVal rest))) else none
    else none
  | _ => (parseUnsigned? (2 ^ 31) s).map Int.ofNat

/-! ### `Score` (src/domain/uci.rs) -/

/-- Engine evaluation score (`enum Score`). -/
inductive Score where
  /-- Centipawn score (positive = white advantage). -/
  | Centipawns (cp : Int)
  /-- Mate in N moves (positive = white wins, negative = black wins). -/
  | Mate (n : Int)
deriving DecidableEq, Repr

/-- `Score::as_centipawns`: numeric value for comparison/display. -/
def Score.as_centipawns : Score → Int
  | .Centipawns cp => cp
  | .Mate n => if n > 0 then 10000 - n else -10000 - n

/-! ### `UciOutputKind` (src/domain/uci.rs) -/

/-- Raw UCI output line categories (`enum UciOutputKind`). -/
inductive UciOutputKind where
  | UciOk
  | ReadyOk
  | Info (s : String)
  | BestMove (s : String)
  | Id (s : String)
  | Option (s : String)
  | Other (s : String)
deriving DecidableEq, Repr

/-- `UciOutputKind::parse`: trim, then exact match for `uciok` /
`readyok`, then `strip_prefix` for the payload-carrying kinds (the
suffix after an n-character prefix is `strDrop _ n`). -/
def UciOutputKind.parse (line : String) : UciOutputKind :=
  let l := strTrim line
  if l = "uciok" then .UciOk
  else if l = "readyok" then .ReadyOk
  else if strStartsWith l "info " then .Info (strDrop l 5)
  else if strStartsWith l "bestmove " then .BestMove (strDrop l 9)
  else if strStartsWith l "id " then .Id (strDrop l 3)
  else if strStartsWith l "option " then .Option (strDrop l 7)
  else .Other l

/-- A raw line with its category (`struct UciOutput`). -/
structure UciOutput where
  raw : String
  kind : UciOutputKind
deriving DecidableEq, Repr

/-- `UciOutput::new`. -/
def UciOutput.new (line : String) : UciOutput :=
  { raw := line, kind := UciOutputKind.parse line }

/-! ### `UciInfo` (src/domain/uci.rs) -/

/-- Parsed UCI info line (`struct UciInfo`), fields in source order. -/
structure UciInfo where
  depth : Option Nat
  seldepth : Option Nat
  multipv : Option Nat
  score : Option Score
  nodes : Option Nat
  nps : Option Nat
  time : Option Nat
  pv : List String
  currmove : Option String
  currmovenumber : Option Nat
  hashfull : Option Nat
deriving DecidableEq, Repr

/-- The all-`None` `UciInfo` that `UciInfo::parse` starts from. -/
def UciInfo.empty : UciInfo :=
  { depth := none, seldepth := none, multipv := none, score := none,
    nodes := none, nps := none, time := none, pv := [],
    currmove := none, currmovenumber := none, hashfull := none }

/-- The reserved keywords at which the `pv` token-collection loop of
`UciInfo::parse` stops. -/
def isKeyword (t : String) : Bool :=
  ["depth", "seldepth", "multipv", "score", "nodes", "nps", "time",
   "hashfull", "currmove", "currmovenumber", "string", "refutation",
   "currline"].contains t

/-- The `score cp` / `score mate` field update of `UciInfo::parse`: on
parse failure the previous value is kept (the Rust code assigns only
inside `if let Ok(..)`). -/
def scoreUpd (old : Option Score) (mk : Int → Score) (v : String) : Option Score :=
  match parseI32? v with
  | some n => some (mk n)
  | none => old

/-- The token-cursor loop of `UciInfo::parse`. The Rust loop walks an
index `i` over the token slice; here the list argument is the tokens
from the cursor on, and the slice-length lookahead checks
(`i + 1 < tokens.len()`, `i + 2 < tokens.len()`) become the three list
patterns below. The inner `pv` collection loop (which pushes tokens
until a reserved keyword and then lets the outer loop resume at that
keyword) is represented by the `inPv` flag: while it is `true`,
non-keyword tokens are appended to `pv`, and a keyword token is handled
by the ordinary dispatch. -/
def UciInfo.parseLoop : List String → Bool → UciInfo → UciInfo
  | [], _, info => info
  -- one token left: a key with an argument arity finds no argument
  -- (`i + 1 < tokens.len()` fails), so only the pv-collection guard can
  -- still change the result before the cursor leaves the slice
  | [t], inPv, info =>
    if inPv = true ∧ isKeyword t = false then { info with pv := info.pv ++ [t] }
    else info
  -- two tokens left: every single-argument key can fire, but `score`
  -- (which needs two arguments, `i + 2 < tokens.len()`) cannot, and
  -- falls through to reprocessing its follower
  | [t, a], inPv, info =>
    if inPv = true ∧ isKeyword t = false then
      parseLoop [a] true { info with pv := info.pv ++ [t] }
    else if t = "depth" then { info with depth := parseU32? a }
    else if t = "seldepth" then { info with seldepth := parseU32? a }
    else if t = "multipv" then { info with multipv := parseU32? a }
    else if t = "score" then parseLoop [a] false info
    else if t = "nodes" then { info with nodes := parseU64? a }
    else if t = "nps" then { info with nps := parseU64? a }
    else if t = "time" then { info with time := parseU64? a }
    else if t = "hashfull" then { info with hashfull := parseU32? a }
    else if t = "currmove" then { info with currmove := some a }
    else if t = "currmovenumber" then { info with currmovenumber := parseU32? a }
    else if t = "pv" then parseLoop [a] true info
    else parseLoop [a] false info
  -- three or more tokens left: the general dispatch
  | t :: a :: v :: rest, inPv, info =>
    if inPv = true ∧ isKeyword t = false then
      parseLoop (a :: v :: rest) true { info with pv := info.pv ++ [t] }
    else if t = "depth" then
      parseLoop (v :: rest) false { info with depth := parseU32? a }
    else if t = "seldepth" then
      parseLoop (v :: rest) false { info with seldepth := parseU32? a }
    else if t = "multipv" then
      parseLoop (v :: rest) false { info with multipv := parseU32? a }
    else if t = "score" then
      if a = "cp" then
        parseLoop rest false { info with score := scoreUpd info.score Score.Centipawns v }
      else if a = "mate" then
        parseLoop rest false { info with score := scoreUpd info.score Score.Mate v }
      else parseLoop (a :: v :: rest) false info
    else if t = "nodes" then
      parseLoop (v :: rest) false { info with nodes := parseU64? a }
    else if t = "nps" then
      parseLoop (v :: rest) false { info with nps := parseU64? a }
    else if t = "time" then
      parseLoop (v :: rest) false { info with time := parseU64? a }
    else if t = "hashfull" then
      parseLoop (v :: rest) false { info with hashfull := parseU32? a }
    else if t = "currmove" then
      parseLoop (v :: rest) false { info with currmove := some a }
    else if t = "currmovenumber" then
      parseLoop (v :: rest) false { info with currmovenumber := parseU32? a }
    else if t = "pv" then
      parseLoop (a :: v :: rest) true info
    else
      parseLoop (a :: v :: rest) false info

/-- `UciInfo::parse`: tokenize on whitespace and run the cursor loop. -/
def UciInfo.parse (s : String) : UciInfo :=
  UciInfo.parseLoop (splitWs s) false UciInfo.empty

/-- `UciInfo::has_analysis`: depth and score present, `pv` non-empty. -/
def UciInfo.has_analysis (i : UciInfo) : Bool :=
  i.depth.isSome && i.score.isSome && !i.pv.isEmpty

example :
    (UciInfo.parse "depth 20 score cp 35 pv e2e4 e7e5").depth = some 20 := by decide

example :
    (UciInfo.parse "depth 20 score cp 35 pv e2e4 e7e5").pv = ["e2e4", "e7e5"] := by decide

example : (UciInfo.parse "depth 12 score mate -2 pv g8f6").score = some (Score.Mate (-2)) := by
  decide

example : UciOutputKind.parse "  uciok  " = UciOutputKind.UciOk := by decide

example : UciOutputKind.parse "info depth 3" = UciOutputKind.Info "depth 3" := by decide

example : UciOutputKind.parse "uciokx" = UciOutputKind.Other "uciokx" := by decide

/-! ### `UciCommand` (src/domain/uci.rs) -/

/-- UCI commands sent to the engine (`enum UciCommand`). -/
inductive UciCommand where
  | Uci
  | IsReady
  | UciNewGame
  | SetOption (name value : String)
  | Position (fen : Option String) (moves : List String)
  | GoInfinite
  | GoDepth (d : Nat)
  | Stop
  | Quit
deriving DecidableEq, Repr

/-- `UciCommand::to_uci_string`. -/
def UciCommand.toUciString : UciCommand → String
  | .Uci => "uci"
  | .IsReady => "isready"
  | .UciNewGame => "ucinewgame"
  | .SetOption name value => "setoption name " ++ name ++ " value " ++ value
  | .Position fen moves =>
    (match fen with
      | some f => "position " ++ ("fen " ++ f)
      | none => "position " ++ "startpos")
    ++ (if moves ≠ [] then " moves " ++ String.intercalate " " moves else "")
  | .GoInfinite => "go infinite"
  | .GoDepth d => "go depth " ++ toString d
  | .Stop => "stop"
  | .Quit => "quit"

/-! ### `EngineModel` (src/models/engine.rs) -/

/-- `MAX_OUTPUT_LINES`: maximum number of output lines kept in history. -/
def MAX_OUTPUT_LINES : Nat := 100

/-- `MULTI_PV`: number of principal variations requested. -/
def MULTI_PV : Nat := 3

/-- Messages from the engine reader thread (`enum EngineEvent`). -/
inductive EngineEvent where
  | Output (line : String)
  | Exited
  | Error (msg : String)
deriving DecidableEq, Repr

/-- The engine session state (`struct EngineModel`). The two `mpsc`
channels are embedded by their observable content: `eventReceiver` is
`some queued` when the receiver half is installed (`queued` being the
events currently waiting to be drained) and `none` after `stop()` drops
it; `hasSender`/`cmdQueue` model the command sender half and the lines
enqueued on it; `process : Bool` models `Option<Child>` presence. The
GPUI poll-task handle carries no observable state and is omitted. -/
structure EngineModel where
  running : Bool
  analyzing : Bool
  outputLines : List UciOutput
  analysisLines : List (Nat × UciInfo)
  blackToMove : Bool
  currentFen : Option String
  eventReceiver : Option (List EngineEvent)
  hasSender : Bool
  cmdQueue : List String
  process : Bool
deriving DecidableEq, Repr

/-- `EngineModel::new`. -/
def EngineModel.new : EngineModel :=
  { running := false, analyzing := false, outputLines := [],
    analysisLines := [], blackToMove := false, currentFen := none,
    eventReceiver := none, hasSender := false, cmdQueue := [],
    process := false }

/-- `HashMap::insert` on the analysis map, modelled on an association
list with unique keys: replace the entry at `k` or add one. -/
def insertPV (m : List (Nat × UciInfo)) (k : Nat) (v : UciInfo) : List (Nat × UciInfo) :=
  if m.any (fun p => p.1 = k) then
    m.map (fun p => if p.1 = k then (k, v) else p)
  else m ++ [(k, v)]

/-- `EngineModel::send_command`: encode and enqueue on the command
channel if the sender is still installed, silently drop otherwise. -/
def EngineModel.sendCommand (st : EngineModel) (cmd : UciCommand) : EngineModel :=
  if st.hasSender then { st with cmdQueue := st.cmdQueue ++ [cmd.toUciString] } else st

/-- The history cap applied at the end of `EngineModel::add_output`:
`drain(0..excess)` removes the oldest excess lines in one batch. -/
def truncOutput (l : List UciOutput) : List UciOutput :=
  if l.length > MAX_OUTPUT_LINES then l.drop (l.length - MAX_OUTPUT_LINES) else l

/-- The analysis-map update inside `EngineModel::add_output`: an `Info`
line whose parse `has_analysis()` is inserted at key
`multipv.unwrap_or(1)`; everything else leaves the map alone. -/
def analysisUpdate (m : List (Nat × UciInfo)) (output : UciOutput) : List (Nat × UciInfo) :=
  match output.kind with
  | .Info body =>
    let info := UciInfo.parse body
    if info.has_analysis then insertPV m (info.multipv.getD 1) info else m
  | _ => m

/-- `EngineModel::add_output`: categorize the line, update the analysis
map if applicable, push onto the history and trim it to the cap. -/
def EngineModel.addOutput (st : EngineModel) (line : String) : EngineModel :=
  let output := UciOutput.new line
  { st with analysisLines := analysisUpdate st.analysisLines output,
            outputLines := truncOutput (st.outputLines ++ [output]) }

/-- The per-event dispatch inside `EngineModel::process_pending_events`. -/
def EngineModel.processEvent (st : EngineModel) : EngineEvent → EngineModel
  | .Output line => st.addOutput line
  | .Exited => ({ st with running := false, analyzing := false }).addOutput "[Engine exited]"
  | .Error e => st.addOutput ("[Error: " ++ e ++ "]")

/-- `EngineModel::process_pending_events`: drain every queued event
(`try_recv` until empty), then process the batch; the returned flag says
whether at least one event was processed. -/
def EngineModel.processPendingEvents (st : EngineModel) : EngineModel × Bool :=
  match st.eventReceiver with
  | none => (st, false)
  | some events =>
    if events.isEmpty then (st, false)
    else (events.foldl EngineModel.processEvent { st with eventReceiver := some [] }, true)

/-- `EngineModel::stop_analysis`: no-op when not analyzing, else send
`stop` and mark idle. -/
def EngineModel.stopAnalysis (st : EngineModel) : EngineModel :=
  if st.analyzing = false then st
  else { st.sendCommand UciCommand.Stop with analyzing := false }

/-- `EngineModel::stop`: no-op when already stopped; otherwise stop
analysis, send `quit`, drop both channel halves, kill the process if one
is present (the `Bool` result reports whether a kill was performed),
clear the flags and append the `[Engine stopped]` marker. -/
def EngineModel.stop (st : EngineModel) : EngineModel × Bool :=
  if st.running = false then (st, false)
  else
    let st1 := if st.analyzing then st.stopAnalysis else st
    let st2 := st1.sendCommand UciCommand.Quit
    let st3 := { st2 with hasSender := false, eventReceiver := none }
    let killed := st3.process
    let st4 := { st3 with process := false, running := false, analyzing := false }
    (st4.addOutput "[Engine stopped]", killed)

/-- Side-to-move extraction in `EngineModel::start_analysis`: second
whitespace-delimited FEN field equal to `"b"`, default `false`. -/
def blackFromFen (fen : String) : Bool :=
  (((splitWs fen).get? 1).map (fun s => s == "b")).getD false

/-- `EngineModel::start_analysis`: no-op when not running; otherwise
send `stop` if a previous analysis is live, record the FEN, clear the
analysis map, derive the side to move, send `position` + `go infinite`
and mark analyzing. -/
def EngineModel.startAnalysis (st : EngineModel) (fen : String) : EngineModel :=
  if st.running = false then st
  else
    let st1 := if st.analyzing then st.sendCommand UciCommand.Stop else st
    let st2 := { st1 with currentFen := some fen, analysisLines := [],
                          blackToMove := blackFromFen fen }
    let st3 := st2.sendCommand (UciCommand.Position (some fen) [])
    let st4 := st3.sendCommand UciCommand.GoInfinite
    { st4 with analyzing := true }

/-- `EngineModel::start`: success without any state change when already
running; otherwise spawn the process (`spawnOk` abstracts the outcome of
`Command::spawn` and the stdin/stdout handle acquisition — on failure an
error is returned with the state untouched), install the channels, mark
running, send the `uci`/`isready`/MultiPV handshake and append the
`[Engine started]` marker. -/
def EngineModel.start (st : EngineModel) (spawnOk : Bool) : EngineModel × Except String Unit :=
  if st.running then (st, Except.ok ())
  else if spawnOk = false then (st, Except.error "Failed to start engine")
  else
    let st1 := { st with process := true, eventReceiver := some [],
                         hasSender := true, running := true }
    let st2 := st1.sendCommand UciCommand.Uci
    let st3 := st2.sendCommand UciCommand.IsReady
    let st4 := st3.sendCommand (UciCommand.SetOption "MultiPV" (toString MULTI_PV))
    (st4.addOutput "[Engine started]", Except.ok ())

/-- `EngineModel::analysis_lines`: the map's values sorted by
`multipv.unwrap_or(1)`. -/
def EngineModel.analysisLinesSorted (st : EngineModel) : List UciInfo :=
  (st.analysisLines.map Prod.snd).mergeSort
    (fun a b => a.multipv.getD 1 ≤ b.multipv.getD 1)

/-! ### History-cap lemmas -/

theorem truncOutput_eq_drop (l : List UciOutput) :
    truncOutput l = l.drop (l.length - MAX_OUTPUT_LINES) := by
  unfold truncOutput
  split
  · rfl
  · next h =>
    have h0 : l.length - MAX_OUTPUT_LINES = 0 := by omega
    rw [h0, List.drop_zero]

theorem truncOutput_length_le (l : List UciOutput) :
    (truncOutput l).length ≤ MAX_OUTPUT_LINES := by
  unfold truncOutput
  split
  · next h => rw [List.length_drop]; omega
  · next h => omega

theorem truncOutput_of_le (l : List UciOutput) (h : l.length ≤ MAX_OUTPUT_LINES) :
    truncOutput l = l := by
  unfold truncOutput
  rw [if_neg (by omega)]

theorem truncOutput_append_left (a b : List UciOutput) :
    truncOutput (truncOutput a ++ b) = truncOutput (a ++ b) := by
  rw [truncOutput_eq_drop a, ← List.drop_append_of_le_length (Nat.sub_le _ _),
    truncOutput_eq_drop, truncOutput_eq_drop, List.drop_drop]
  have hidx : a.length - MAX_OUTPUT_LINES
      + (((a ++ b).drop (a.length - MAX_OUTPUT_LINES)).length - MAX_OUTPUT_LINES)
      = (a ++ b).length - MAX_OUTPUT_LINES := by
    simp only [List.length_drop, List.length_append]
    omega
  rw [hidx]

/-! ### Frame lemmas for the session operations -/

theorem addOutput_outputLines (st : EngineModel) (l : String) :
    (st.addOutput l).outputLines = truncOutput (st.outputLines ++ [UciOutput.new l]) := rfl

theorem addOutput_analysisLines (st : EngineModel) (l : String) :
    (st.addOutput l).analysisLines = analysisUpdate st.analysisLines (UciOutput.new l) := rfl

theorem addOutput_running (st : EngineModel) (l : String) :
    (st.addOutput l).running = st.running := rfl

theorem addOutput_analyzing (st : EngineModel) (l : String) :
    (st.addOutput l).analyzing = st.analyzing := rfl

theorem sendCommand_outputLines (st : EngineModel) (c : UciCommand) :
    (st.sendCommand c).outputLines = st.outputLines := by
  unfold EngineModel.sendCommand; split <;> rfl

theorem sendCommand_analysisLines (st : EngineModel) (c : UciCommand) :
    (st.sendCommand c).analysisLines = st.analysisLines := by
  unfold EngineModel.sendCommand; split <;> rfl

theorem sendCommand_running (st : EngineModel) (c : UciCommand) :
    (st.sendCommand c).running = st.running := by
  unfold EngineModel.sendCommand; split <;> rfl

theorem sendCommand_analyzing (st : EngineModel) (c : UciCommand) :
    (st.sendCommand c).analyzing = st.analyzing := by
  unfold EngineModel.sendCommand; split <;> rfl

/-! ### Single-step evaluation lemmas for the info-parser loop

`UciInfo.parseLoop` is evaluated on concrete lines one cursor step at a
time through these lemmas (naive whole-term normalization duplicates the
accumulator once per branch and blows up). Every dispatch keyword except
`"pv"` is in the reserved list, so those steps hold for either value of
the `inPv` flag. -/

theorem parseLoop_nil (b : Bool) (i : UciInfo) : UciInfo.parseLoop [] b i = i := rfl

theorem parseLoop_pv_collect (t : String) (r : List String) (i : UciInfo)
    (h : isKeyword t = false) :
    UciInfo.parseLoop (t :: r) true i
      = UciInfo.parseLoop r true { i with pv := i.pv ++ [t] } := by
  rcases r with _ | ⟨a, _ | ⟨v, r⟩⟩ <;> rw [UciInfo.parseLoop.eq_def] <;>
    simp [h, parseLoop_nil]

theorem parseLoop_depth (b : Bool) (v : String) (r : List String) (i : UciInfo) :
    UciInfo.parseLoop ("depth" :: v :: r) b i
      = UciInfo.parseLoop r false { i with depth := parseU32? v } := by
  rcases r with _ | ⟨x, r⟩ <;> rw [UciInfo.parseLoop.eq_def] <;>
    simp [isKeyword, parseLoop_nil]

theorem parseLoop_seldepth (b : Bool) (v : String) (r : List String) (i : UciInfo) :
    UciInfo.parseLoop ("seldepth" :: v :: r) b i
      = UciInfo.parseLoop r false { i with seldepth := parseU32? v } := by
  rcases r with _ | ⟨x, r⟩ <;> rw [UciInfo.parseLoop.eq_def] <;>
    simp [isKeyword, parseLoop_nil]

theorem parseLoop_multipv (b : Bool) (v : String) (r : List String) (i : UciInfo) :
    UciInfo.parseLoop ("multipv" :: v :: r) b i
      = UciInfo.parseLoop r false { i with multipv := parseU32? v } := by
  rcases r with _ | ⟨x, r⟩ <;> rw [UciInfo.parseLoop.eq_def] <;>
    simp [isKeyword, parseLoop_nil]

theorem parseLoop_score_cp (b : Bool) (v : String) (r : List String) (i : UciInfo) :
    UciInfo.parseLoop ("score" :: "cp" :: v :: r) b i
      = UciInfo.parseLoop r false
          { i with score := scoreUpd i.score Score.Centipawns v } := by
  rw [UciInfo.parseLoop.eq_def]
  simp [isKeyword]

theorem parseLoop_score_mate (b : Bool) (v : String) (r : List String) (i : UciInfo) :
    UciInfo.parseLoop ("score" :: "mate" :: v :: r) b i
      = UciInfo.parseLoop r false
          { i with score := scoreUpd i.score Score.Mate v } := by
  rw [UciInfo.parseLoop.eq_def]
  simp [isKeyword]

theorem parseLoop_nodes (b : Bool) (v : String) (r : List String) (i : UciInfo) :
    UciInfo.parseLoop ("nodes" :: v :: r) b i
      = UciInfo.parseLoop r false { i with nodes := parseU64? v } := by
  rcases r with _ | ⟨x, r⟩ <;> rw [UciInfo.parseLoop.eq_def] <;>
    simp [isKeyword, parseLoop_nil]

theorem parseLoop_nps (b : Bool) (v : String) (r : List String) (i : UciInfo) :
    UciInfo.parseLoop ("nps" :: v :: r) b i
      = UciInfo.parseLoop r false { i with nps := parseU64? v } := by
  rcases r with _ | ⟨x, r⟩ <;> rw [UciInfo.parseLoop.eq_def] <;>
    simp [isKeyword, parseLoop_nil]

theorem parseLoop_time (b : Bool) (v : String) (r : List String) (i : UciInfo) :
    UciInfo.parseLoop ("time" :: v :: r) b i
      = UciInfo.parseLoop r false { i with time := parseU64? v } := by
  rcases r with _ | ⟨x, r⟩ <;> rw [UciInfo.parseLoop.eq_def] <;>
    simp [isKeyword, parseLoop_nil]

theorem parseLoop_hashfull (b : Bool) (v : String) (r : List String) (i : UciInfo) :
    UciInfo.parseLoop ("hashfull" :: v :: r) b i
      = UciInfo.parseLoop r false { i with hashfull := parseU32? v } := by
  rcases r with _ | ⟨x, r⟩ <;> rw [UciInfo.parseLoop.eq_def] <;>
    simp [isKeyword, parseLoop_nil]

theorem parseLoop_currmove (b : Bool) (v : String) (r : List String) (i : UciInfo) :
    UciInfo.parseLoop ("currmove" :: v :: r) b i
      = UciInfo.parseLoop r false { i with currmove := some v } := by
  rcases r with _ | ⟨x, r⟩ <;> rw [UciInfo.parseLoop.eq_def] <;>
    simp [isKeyword, parseLoop_nil]

theorem parseLoop_currmovenumber (b : Bool) (v : String) (r : List String) (i : UciInfo) :
    UciInfo.parseLoop ("currmovenumber" :: v :: r) b i
      = UciInfo.parseLoop r false { i with currmovenumber := parseU32? v } := by
  rcases r with _ | ⟨x, r⟩ <;> rw [UciInfo.parseLoop.eq_def] <;>
    simp [isKeyword, parseLoop_nil]

theorem parseLoop_pv_enter (r : List String) (i : UciInfo) :
    UciInfo.parseLoop ("pv" :: r) false i = UciInfo.parseLoop r true i := by
  rcases r with _ | ⟨a, _ | ⟨v, r⟩⟩ <;> rw [UciInfo.parseLoop.eq_def] <;>
    simp [isKeyword, parseLoop_nil]

/-! ### Claim theorems: the protocol codec -/

/-- **C1**: `UciInfo::parse` on the real Stockfish example line yields
depth 24, seldepth 31, multipv 1, score `Centipawns 28`, nodes 2847613,
nps 2431482, hashfull 457, time 1171 and the 9-move pv starting `e2e4`,
with `has_analysis()` true; on the bare currmove update line it yields
an empty pv and `has_analysis()` false. -/
theorem parse_info_stockfish_line :
    UciInfo.parse "depth 24 seldepth 31 multipv 1 score cp 28 nodes 2847613 nps 2431482 hashfull 457 time 1171 pv e2e4 e7e5 g1f3 b8c6 f1b5 a7a6 b5a4 g8f6 e1g1"
      = { depth := some 24, seldepth := some 31, multipv := some 1,
          score := some (Score.Centipawns 28), nodes := some 2847613,
          nps := some 2431482, time := some 1171,
          pv := ["e2e4", "e7e5", "g1f3", "b8c6", "f1b5", "a7a6", "b5a4", "g8f6", "e1g1"],
          currmove := none, currmovenumber := none, hashfull := some 457 }
    ∧ (UciInfo.parse "depth 24 seldepth 31 multipv 1 score cp 28 nodes 2847613 nps 2431482 hashfull 457 time 1171 pv e2e4 e7e5 g1f3 b8c6 f1b5 a7a6 b5a4 g8f6 e1g1").pv.length = 9
    ∧ (UciInfo.parse "depth 24 seldepth 31 multipv 1 score cp 28 nodes 2847613 nps 2431482 hashfull 457 time 1171 pv e2e4 e7e5 g1f3 b8c6 f1b5 a7a6 b5a4 g8f6 e1g1").pv.head? = some "e2e4"
    ∧ (UciInfo.parse "depth 24 seldepth 31 multipv 1 score cp 28 nodes 2847613 nps 2431482 hashfull 457 time 1171 pv e2e4 e7e5 g1f3 b8c6 f1b5 a7a6 b5a4 g8f6 e1g1").has_analysis = true
    ∧ (UciInfo.parse "depth 15 currmove g1f3 currmovenumber 5").pv = []
    ∧ (UciInfo.parse "depth 15 currmove g1f3 currmovenumber 5").has_analysis = false := by
  have hsplit : splitWs "depth 24 seldepth 31 multipv 1 score cp 28 nodes 2847613 nps 2431482 hashfull 457 time 1171 pv e2e4 e7e5 g1f3 b8c6 f1b5 a7a6 b5a4 g8f6 e1g1"
      = ["depth", "24", "seldepth", "31", "multipv", "1", "score", "cp", "28", "nodes",
         "2847613", "nps", "2431482", "hashfull", "457", "time", "1171", "pv", "e2e4",
         "e7e5", "g1f3", "b8c6", "f1b5", "a7a6", "b5a4", "g8f6", "e1g1"] := by decide
  have hmain : UciInfo.parse "depth 24 seldepth 31 multipv 1 score cp 28 nodes 2847613 nps 2431482 hashfull 457 time 1171 pv e2e4 e7e5 g1f3 b8c6 f1b5 a7a6 b5a4 g8f6 e1g1"
      = { depth := some 24, seldepth := some 31, multipv := some 1,
          score := some (Score.Centipawns 28), nodes := some 2847613,
          nps := some 2431482, time := some 1171,
          pv := ["e2e4", "e7e5", "g1f3", "b8c6", "f1b5", "a7a6", "b5a4", "g8f6", "e1g1"],
          currmove := none, currmovenumber := none, hashfull := some 457 } := by
    unfold UciInfo.parse
    rw [hsplit]
    rw [parseLoop_depth, parseLoop_seldepth, parseLoop_multipv, parseLoop_score_cp,
        parseLoop_nodes, parseLoop_nps, parseLoop_hashfull, parseLoop_time,
        parseLoop_pv_enter, parseLoop_pv_collect _ _ _ (by decide),
        parseLoop_pv_collect _ _ _ (by decide), parseLoop_pv_collect _ _ _ (by decide),
        parseLoop_pv_collect _ _ _ (by decide), parseLoop_pv_collect _ _ _ (by decide),
        parseLoop_pv_collect _ _ _ (by decide), parseLoop_pv_collect _ _ _ (by decide),
        parseLoop_pv_collect _ _ _ (by decide), parseLoop_pv_collect _ _ _ (by decide),
        parseLoop_nil]
    decide
  refine ⟨hmain, ?_, ?_, ?_, ?_, ?_⟩
  · rw [hmain]
    decide
  · rw [hmain]
    decide
  · rw [hmain]
    decide
  · decide
  · decide

/-- **C3**: for all integers `0 < a < b`, `Mate a` compares above
`Mate b` and `Mate (-a)` compares below `Mate (-b)` under
`as_centipawns`, and `Centipawns` is a passthrough. -/
theorem mate_score_ordering (a b : Int) (ha : 0 < a) (hab : a < b) :
    (Score.Mate a).as_centipawns > (Score.Mate b).as_centipawns
    ∧ (Score.Mate (-a)).as_centipawns < (Score.Mate (-b)).as_centipawns
    ∧ ∀ cp : Int, (Score.Centipawns cp).as_centipawns = cp := by
  refine ⟨?_, ?_, fun cp => rfl⟩
  · simp only [Score.as_centipawns]
    rw [if_pos ha, if_pos (by omega : (0 : Int) < b)]
    omega
  · simp only [Score.as_centipawns]
    rw [if_neg (by omega : ¬ ((0 : Int) < -a)), if_neg (by omega : ¬ ((0 : Int) < -b))]
    omega

theorem mate_score_ordering_witness :
    (Score.Mate 1).as_centipawns > (Score.Mate 2).as_centipawns
    ∧ (Score.Mate (-1)).as_centipawns < (Score.Mate (-2)).as_centipawns :=
  ⟨(mate_score_ordering 1 2 (by decide) (by decide)).1,
   (mate_score_ordering 1 2 (by decide) (by decide)).2.1⟩

/-- **C6**: the info parser is total by construction (it is a plain
function on strings); every token the cursor loop does not recognize is
skipped by advancing the cursor one position, and a partially garbled
line still yields the fields that were recognized. -/
theorem parse_info_skips_unknown :
    (∀ (t : String) (rest : List String) (info : UciInfo),
        t ∉ ["depth", "seldepth", "multipv", "score", "nodes", "nps", "time",
             "hashfull", "currmove", "currmovenumber", "pv"] →
        UciInfo.parseLoop (t :: rest) false info = UciInfo.parseLoop rest false info)
    ∧ UciInfo.parse "xyzzy depth 7 glorp" = { UciInfo.empty with depth := some 7 } := by
  constructor
  · intro t rest info ht
    simp only [List.mem_cons, List.not_mem_nil, or_false, not_or] at ht
    obtain ⟨h1, h2, h3, h4, h5, h6, h7, h8, h9, h10, h11⟩ := ht
    rcases rest with _ | ⟨a, _ | ⟨v, r⟩⟩ <;> rw [UciInfo.parseLoop.eq_def] <;>
      simp [h1, h2, h3, h4, h5, h6, h7, h8, h9, h10, h11, parseLoop_nil]
  · decide

theorem parse_info_skips_unknown_witness :
    UciInfo.parseLoop ["wdl", "depth", "9"] false UciInfo.empty
      = UciInfo.parseLoop ["depth", "9"] false UciInfo.empty :=
  parse_info_skips_unknown.1 "wdl" ["depth", "9"] UciInfo.empty (by decide)

/-- **C2** counterexample: the trimmed line `"uciokx"` starts with
`"uciok"` but classifies as `Other`, because the code matches `uciok`
by exact equality, not by prefix. -/
theorem classify_uciok_cex :
    strStartsWith (strTrim "uciokx") "uciok" = true
    ∧ UciOutputKind.parse "uciokx" = UciOutputKind.Other "uciokx" := by
  decide

/-- **C2** (amended): classification trims the line, then matches
`"uciok"` and `"readyok"` by exact equality and `"info "`,
`"bestmove "`, `"id "`, `"option "` by prefix, in that order, falling
back to `Other` on the trimmed line. -/
theorem classify_spec (s : String) :
    (strTrim s = "uciok" → UciOutputKind.parse s = UciOutputKind.UciOk)
    ∧ (strTrim s = "readyok" → UciOutputKind.parse s = UciOutputKind.ReadyOk)
    ∧ (strTrim s ≠ "uciok" → strTrim s ≠ "readyok" →
        strStartsWith (strTrim s) "info " = true →
        UciOutputKind.parse s = UciOutputKind.Info (strDrop (strTrim s) 5))
    ∧ (strTrim s ≠ "uciok" → strTrim s ≠ "readyok" →
        strStartsWith (strTrim s) "info " = false →
        strStartsWith (strTrim s) "bestmove " = true →
        UciOutputKind.parse s = UciOutputKind.BestMove (strDrop (strTrim s) 9))
    ∧ (strTrim s ≠ "uciok" → strTrim s ≠ "readyok" →
        strStartsWith (strTrim s) "info " = false →
        strStartsWith (strTrim s) "bestmove " = false →
        strStartsWith (strTrim s) "id " = true →
        UciOutputKind.parse s = UciOutputKind.Id (strDrop (strTrim s) 3))
    ∧ (strTrim s ≠ "uciok" → strTrim s ≠ "readyok" →
        strStartsWith (strTrim s) "info " = false →
        strStartsWith (strTrim s) "bestmove " = false →
        strStartsWith (strTrim s) "id " = false →
        strStartsWith (strTrim s) "option " = true →
        UciOutputKind.parse s = UciOutputKind.Option (strDrop (strTrim s) 7))
    ∧ (strTrim s ≠ "uciok" → strTrim s ≠ "readyok" →
        strStartsWith (strTrim s) "info " = false →
        strStartsWith (strTrim s) "bestmove " = false →
        strStartsWith (strTrim s) "id " = false →
        strStartsWith (strTrim s) "option " = false →
        UciOutputKind.parse s = UciOutputKind.Other (strTrim s)) := by
  refine ⟨?_, ?_, ?_, ?_, ?_, ?_, ?_⟩
  · intro h1
    simp [UciOutputKind.parse, h1]
  · intro h2
    simp [UciOutputKind.parse, h2]
  · intro h1 h2 h3
    simp [UciOutputKind.parse, h1, h2, h3]
  · intro h1 h2 h3 h4
    simp [UciOutputKind.parse, h1, h2, h3, h4]
  · intro h1 h2 h3 h4 h5
    simp [UciOutputKind.parse, h1, h2, h3, h4, h5]
  · intro h1 h2 h3 h4 h5 h6
    simp [UciOutputKind.parse, h1, h2, h3, h4, h5, h6]
  · intro h1 h2 h3 h4 h5 h6
    simp [UciOutputKind.parse, h1, h2, h3, h4, h5, h6]

theorem classify_spec_witness :
    UciOutputKind.parse " uciok " = UciOutputKind.UciOk
    ∧ UciOutputKind.parse "readyok" = UciOutputKind.ReadyOk
    ∧ UciOutputKind.parse "info depth 3" = UciOutputKind.Info "depth 3"
    ∧ UciOutputKind.parse "hello" = UciOutputKind.Other "hello" :=
  ⟨(classify_spec " uciok ").1 (by decide),
   (classify_spec "readyok").2.1 (by decide),
   (classify_spec "info depth 3").2.2.1 (by decide) (by decide) (by decide),
   (classify_spec "hello").2.2.2.2.2.2 (by decide) (by decide) (by decide) (by decide)
     (by decide) (by decide)⟩

/-! ### Claim theorems: the output history -/

theorem foldl_addOutput_outputLines (L : List String) (st : EngineModel)
    (h : st.outputLines.length ≤ MAX_OUTPUT_LINES) :
    (L.foldl EngineModel.addOutput st).outputLines
      = truncOutput (st.outputLines ++ L.map UciOutput.new) := by
  induction L generalizing st with
  | nil => simp [truncOutput_of_le _ h]
  | cons x L ih =>
    rw [List.foldl_cons,
      ih (st.addOutput x) (by rw [addOutput_outputLines]; exact truncOutput_length_le _),
      addOutput_outputLines, truncOutput_append_left]
    simp [List.append_assoc]

/-- **C4**: the output history never exceeds 100 lines after an
insertion (the excess is removed as one batch trim), and inserting 150
lines one at a time into an empty history retains exactly the 100 most
recent lines in insertion order. -/
theorem output_history_cap :
    (∀ (st : EngineModel) (l : String), ((st.addOutput l).outputLines).length ≤ 100)
    ∧ (∀ (st : EngineModel) (lines : List String),
        st.outputLines = [] → lines.length = 150 →
        (lines.foldl EngineModel.addOutput st).outputLines = (lines.map UciOutput.new).drop 50
        ∧ ((lines.foldl EngineModel.addOutput st).outputLines).length = 100) := by
  constructor
  · intro st l
    rw [addOutput_outputLines]
    exact truncOutput_length_le _
  · intro st lines h0 h150
    have hfold := foldl_addOutput_outputLines lines st (by rw [h0]; simp)
    rw [h0, List.nil_append] at hfold
    have hlen : (lines.map UciOutput.new).length = 150 := by simp [h150]
    refine ⟨?_, ?_⟩
    · rw [hfold, truncOutput_eq_drop, hlen]
      norm_num [MAX_OUTPUT_LINES]
    · rw [hfold, truncOutput_eq_drop, List.length_drop, hlen]
      norm_num [MAX_OUTPUT_LINES]

theorem output_history_cap_witness :
    (((List.range 150).map toString).foldl EngineModel.addOutput EngineModel.new).outputLines
      = (((List.range 150).map toString).map UciOutput.new).drop 50 :=
  (output_history_cap.2 EngineModel.new ((List.range 150).map toString) rfl (by simp)).1

/-! ### Claim theorems: event draining -/

/-- The history line produced by one drained event. -/
def eventLine : EngineEvent → UciOutput
  | .Output l => UciOutput.new l
  | .Exited => UciOutput.new "[Engine exited]"
  | .Error e => UciOutput.new ("[Error: " ++ e ++ "]")

theorem processEvent_outputLines (st : EngineModel) (e : EngineEvent) :
    (st.processEvent e).outputLines = truncOutput (st.outputLines ++ [eventLine e]) := by
  cases e <;> rfl

theorem foldl_processEvent_outputLines (evs : List EngineEvent) (st : EngineModel)
    (h : st.outputLines.length ≤ MAX_OUTPUT_LINES) :
    ((evs.foldl EngineModel.processEvent st).outputLines)
      = truncOutput (st.outputLines ++ evs.map eventLine) := by
  induction evs generalizing st with
  | nil => simp [truncOutput_of_le _ h]
  | cons e evs ih =>
    rw [List.foldl_cons,
      ih (st.processEvent e) (by rw [processEvent_outputLines]; exact truncOutput_length_le _),
      processEvent_outputLines, truncOutput_append_left]
    simp [List.append_assoc]

theorem errLine_ne_exit (m : String) : "[Error: " ++ m ++ "]" ≠ "[Engine exited]" := by
  intro h
  have h2 := congrArg String.data h
  rw [String.data_append, String.data_append] at h2
  have e1 : "[Error: ".data = ['[', 'E', 'r', 'r', 'o', 'r', ':', ' '] := rfl
  have e2 : "]".data = [']'] := rfl
  have e3 : "[Engine exited]".data
      = ['[', 'E', 'n', 'g', 'i', 'n', 'e', ' ', 'e', 'x', 'i', 't', 'e', 'd', ']'] := rfl
  rw [e1, e2, e3] at h2
  simp only [List.cons_append, List.nil_append, List.cons.injEq] at h2
  exact absurd h2.2.2.1 (by decide)

theorem errLine_beq_exit_false (m : String) :
    ((UciOutput.new ("[Error: " ++ m ++ "]")).raw == "[Engine exited]") = false := by
  rw [beq_eq_false_iff_ne]
  exact errLine_ne_exit m

/-- **C5**: during a drain, an `Exited` event clears `running` and
`analyzing` and appends the `[Engine exited]` marker; an `Error` event
appends `[Error: message]` and leaves `running` unchanged; a drained
queue of `Error` events followed by one `Exited` event ends with
`running = false`, the corresponding history lines appended in order,
and exactly one `[Engine exited]` marker among them. -/
theorem drain_exit_error_events :
    (∀ st : EngineModel,
        (st.processEvent EngineEvent.Exited).running = false
        ∧ (st.processEvent EngineEvent.Exited).analyzing = false
        ∧ (st.processEvent EngineEvent.Exited).outputLines
            = truncOutput (st.outputLines ++ [UciOutput.new "[Engine exited]"]))
    ∧ (∀ (st : EngineModel) (e : String),
        (st.processEvent (EngineEvent.Error e)).outputLines
            = truncOutput (st.outputLines ++ [UciOutput.new ("[Error: " ++ e ++ "]")])
        ∧ (st.processEvent (EngineEvent.Error e)).running = st.running)
    ∧ (∀ (st : EngineModel) (msgs : List String),
        st.running = true →
        st.outputLines.length ≤ 100 →
        st.eventReceiver = some (msgs.map EngineEvent.Error ++ [EngineEvent.Exited]) →
        st.processPendingEvents.1.running = false
        ∧ st.processPendingEvents.1.outputLines
            = truncOutput (st.outputLines
                ++ (msgs.map (fun m => UciOutput.new ("[Error: " ++ m ++ "]"))
                    ++ [UciOutput.new "[Engine exited]"]))
        ∧ (msgs.map (fun m => UciOutput.new ("[Error: " ++ m ++ "]"))
            ++ [UciOutput.new "[Engine exited]"]).countP
              (fun o => o.raw == "[Engine exited]") = 1) := by
  refine ⟨fun st => ⟨rfl, rfl, rfl⟩, fun st e => ⟨rfl, rfl⟩, ?_⟩
  intro st msgs hrun hlen hrecv
  have hres : st.processPendingEvents
      = (((msgs.map EngineEvent.Error ++ [EngineEvent.Exited]).foldl
            EngineModel.processEvent { st with eventReceiver := some [] }), true) := by
    simp [EngineModel.processPendingEvents, hrecv]
  refine ⟨?_, ?_, ?_⟩
  · rw [hres, List.foldl_append]
    rfl
  · rw [hres, List.foldl_append, List.foldl_cons, List.foldl_nil, processEvent_outputLines,
      foldl_processEvent_outputLines _ _ (by simpa using hlen), truncOutput_append_left]
    simp [List.append_assoc, List.map_map, Function.comp_def, eventLine]
  · rw [List.countP_append]
    have h0 : (msgs.map (fun m => UciOutput.new ("[Error: " ++ m ++ "]"))).countP
        (fun o => o.raw == "[Engine exited]") = 0 := by
      rw [List.countP_eq_zero]
      intro o ho
      rw [List.mem_map] at ho
      obtain ⟨m, _, rfl⟩ := ho
      simpa using errLine_beq_exit_false m
    rw [h0]
    decide

theorem drain_exit_error_events_witness :
    (({ EngineModel.new with
        running := true,
        eventReceiver := some [EngineEvent.Error "pipe broke", EngineEvent.Exited]
        } : EngineModel).processPendingEvents).1.running = false :=
  (drain_exit_error_events.2.2
    { EngineModel.new with
      running := true,
      eventReceiver := some [EngineEvent.Error "pipe broke", EngineEvent.Exited] }
    ["pipe broke"] rfl (by decide) rfl).1

/-- **C9**: one drain call processes every currently queued event; it
reports a change exactly when at least one event was processed, and an
empty drain (no receiver or no queued events) returns `false` with the
state unchanged. -/
theorem drain_change_iff :
    (∀ st : EngineModel, st.eventReceiver = none → st.processPendingEvents = (st, false))
    ∧ (∀ st : EngineModel, st.eventReceiver = some [] → st.processPendingEvents = (st, false))
    ∧ (∀ (st : EngineModel) (evs : List EngineEvent), st.eventReceiver = some evs →
        (st.processPendingEvents.2 = true ↔ evs ≠ []))
    ∧ (∀ (st : EngineModel) (evs : List EngineEvent), st.eventReceiver = some evs → evs ≠ [] →
        st.processPendingEvents
          = (evs.foldl EngineModel.processEvent { st with eventReceiver := some [] }, true)) := by
  refine ⟨?_, ?_, ?_, ?_⟩
  · intro st h
    simp [EngineModel.processPendingEvents, h]
  · intro st h
    simp [EngineModel.processPendingEvents, h]
  · intro st evs h
    cases evs <;> simp [EngineModel.processPendingEvents, h]
  · intro st evs h hne
    cases evs with
    | nil => exact absurd rfl hne
    | cons e evs => simp [EngineModel.processPendingEvents, h]

theorem drain_change_iff_witness :
    EngineModel.new.processPendingEvents = (EngineModel.new, false)
    ∧ (({ EngineModel.new with eventReceiver := some [EngineEvent.Output "uciok"]
        } : EngineModel).processPendingEvents).2 = true :=
  ⟨drain_change_iff.1 EngineModel.new rfl,
   (drain_change_iff.2.2.1 { EngineModel.new with
      eventReceiver := some [EngineEvent.Output "uciok"] } [EngineEvent.Output "uciok"]
      rfl).mpr (by decide)⟩

/-! ### Claim theorems: lifecycle operations -/

/-- **C7**: starting a new analysis while the engine runs clears the
per-variation analysis map and leaves the output history exactly as it
was. -/
theorem start_analysis_resets_only_analysis (st : EngineModel) (fen : String)
    (h : st.running = true) :
    (st.startAnalysis fen).analysisLines = []
    ∧ (st.startAnalysis fen).outputLines = st.outputLines := by
  by_cases ha : st.analyzing <;>
    simp [EngineModel.startAnalysis, h, ha, sendCommand_analysisLines, sendCommand_outputLines]

theorem start_analysis_resets_only_analysis_witness :
    (({ EngineModel.new with
        running := true,
        analysisLines := [(1, UciInfo.empty)],
        outputLines := [UciOutput.new "uciok"] } : EngineModel).startAnalysis
          "8/8/8/8/8/8/8/8 b - - 0 1").analysisLines = []
    ∧ (({ EngineModel.new with
        running := true,
        analysisLines := [(1, UciInfo.empty)],
        outputLines := [UciOutput.new "uciok"] } : EngineModel).startAnalysis
          "8/8/8/8/8/8/8/8 b - - 0 1").outputLines = [UciOutput.new "uciok"] :=
  start_analysis_resets_only_analysis
    { EngineModel.new with
      running := true,
      analysisLines := [(1, UciInfo.empty)],
      outputLines := [UciOutput.new "uciok"] } "8/8/8/8/8/8/8/8 b - - 0 1" rfl

theorem stop_running_false (st : EngineModel) : (st.stop).1.running = false := by
  unfold EngineModel.stop
  split
  · next h => exact h
  · rfl

/-- **C8**: redundant lifecycle operations are safe no-ops: `start()`
when already running returns success and changes nothing, `stop()` when
stopped changes nothing, `start_analysis()` when not running and
`stop_analysis()` when not analyzing change nothing, and a second
`stop()` in a row changes nothing and performs no process kill (the
`Bool` component of `stop`'s result reports whether a kill happened). -/
theorem lifecycle_noops :
    (∀ (st : EngineModel) (ok : Bool), st.running = true → st.start ok = (st, Except.ok ()))
    ∧ (∀ st : EngineModel, st.running = false → st.stop = (st, false))
    ∧ (∀ (st : EngineModel) (fen : String), st.running = false → st.startAnalysis fen = st)
    ∧ (∀ st : EngineModel, st.analyzing = false → st.stopAnalysis = st)
    ∧ (∀ st : EngineModel, (st.stop).1.stop = ((st.stop).1, false)) := by
  have hstop : ∀ st : EngineModel, st.running = false → st.stop = (st, false) := by
    intro st h
    simp [EngineModel.stop, h]
  refine ⟨?_, hstop, ?_, ?_, ?_⟩
  · intro st ok h
    simp [EngineModel.start, h]
  · intro st fen h
    simp [EngineModel.startAnalysis, h]
  · intro st h
    simp [EngineModel.stopAnalysis, h]
  · intro st
    exact hstop (st.stop).1 (stop_running_false st)

theorem lifecycle_noops_witness :
    ({ EngineModel.new with running := true } : EngineModel).start true
        = ({ EngineModel.new with running := true }, Except.ok ())
    ∧ EngineModel.new.stop = (EngineModel.new, false)
    ∧ EngineModel.new.startAnalysis "startpos" = EngineModel.new
    ∧ EngineModel.new.stopAnalysis = EngineModel.new :=
  ⟨lifecycle_noops.1 { EngineModel.new with running := true } true rfl,
   lifecycle_noops.2.1 EngineModel.new rfl,
   lifecycle_noops.2.2.1 EngineModel.new "startpos" rfl,
   lifecycle_noops.2.2.2.1 EngineModel.new rfl⟩

/-! ### Claim theorems: the analysis-map key invariant -/

/-- Key consistency of the analysis map: every stored entry passed the
`has_analysis()` gate and sits under its own `multipv.unwrap_or(1)`. -/
def MapInv (m : List (Nat × UciInfo)) : Prop :=
  ∀ p ∈ m, p.2.has_analysis = true ∧ p.2.multipv.getD 1 = p.1

/-- Key consistency as a state invariant. -/
def KeyInv (st : EngineModel) : Prop := MapInv st.analysisLines

theorem MapInv_insertPV (m : List (Nat × UciInfo)) (k : Nat) (v : UciInfo)
    (hm : MapInv m) (hv : v.has_analysis = true) (hk : v.multipv.getD 1 = k) :
    MapInv (insertPV m k v) := by
  unfold insertPV
  split
  · intro p hp
    rw [List.mem_map] at hp
    obtain ⟨q, hq, rfl⟩ := hp
    by_cases hqk : q.1 = k
    · simp only [hqk, if_pos rfl]
      exact ⟨hv, hk⟩
    · rw [if_neg hqk]
      exact hm q hq
  · intro p hp
    rw [List.mem_append] at hp
    rcases hp with hp | hp
    · exact hm p hp
    · rw [List.mem_singleton] at hp
      subst hp
      exact ⟨hv, hk⟩

theorem MapInv_analysisUpdate (m : List (Nat × UciInfo)) (o : UciOutput)
    (hm : MapInv m) : MapInv (analysisUpdate m o) := by
  unfold analysisUpdate
  split
  · dsimp only
    split
    · next hhas => exact MapInv_insertPV _ _ _ hm hhas rfl
    · exact hm
  · exact hm

theorem KeyInv_addOutput (st : EngineModel) (l : String) (h : KeyInv st) :
    KeyInv (st.addOutput l) :=
  MapInv_analysisUpdate _ _ h

theorem KeyInv_processEvent (st : EngineModel) (e : EngineEvent) (h : KeyInv st) :
    KeyInv (st.processEvent e) := by
  cases e <;> exact KeyInv_addOutput _ _ h

theorem KeyInv_foldl_processEvent (evs : List EngineEvent) (st : EngineModel)
    (h : KeyInv st) : KeyInv (evs.foldl EngineModel.processEvent st) := by
  induction evs generalizing st with
  | nil => exact h
  | cons e evs ih => exact ih _ (KeyInv_processEvent _ _ h)

theorem KeyInv_stopAnalysis (st : EngineModel) (h : KeyInv st) : KeyInv st.stopAnalysis := by
  unfold EngineModel.stopAnalysis
  split
  · exact h
  · show MapInv (st.sendCommand UciCommand.Stop).analysisLines
    rw [sendCommand_analysisLines]
    exact h

theorem KeyInv_sendCommand (st : EngineModel) (c : UciCommand) (h : KeyInv st) :
    KeyInv (st.sendCommand c) := by
  show MapInv (st.sendCommand c).analysisLines
  rw [sendCommand_analysisLines]
  exact h

/-- **C10**: in every reachable session state every analysis-map entry
`(k, info)` satisfies `has_analysis(info)` and `info.multipv` (absent
treated as 1) equal to its key `k`: the invariant holds initially and
is preserved by every operation, so the sorted view never exposes an
entry whose stored multipv disagrees with its map key. -/
theorem analysis_key_invariant :
    KeyInv EngineModel.new
    ∧ (∀ (st : EngineModel) (l : String), KeyInv st → KeyInv (st.addOutput l))
    ∧ (∀ (st : EngineModel) (e : EngineEvent), KeyInv st → KeyInv (st.processEvent e))
    ∧ (∀ st : EngineModel, KeyInv st → KeyInv st.processPendingEvents.1)
    ∧ (∀ (st : EngineModel) (fen : String), KeyInv st → KeyInv (st.startAnalysis fen))
    ∧ (∀ st : EngineModel, KeyInv st → KeyInv st.stopAnalysis)
    ∧ (∀ st : EngineModel, KeyInv st → KeyInv (st.stop).1)
    ∧ (∀ (st : EngineModel) (ok : Bool), KeyInv st → KeyInv (st.start ok).1)
    ∧ (∀ st : EngineModel, KeyInv st →
        ∀ info ∈ st.analysisLinesSorted, info.has_analysis = true) := by
  refine ⟨?_, KeyInv_addOutput, KeyInv_processEvent, ?_, ?_, KeyInv_stopAnalysis, ?_, ?_, ?_⟩
  · intro p hp
    cases hp
  · intro st h
    unfold EngineModel.processPendingEvents
    split
    · exact h
    · split
      · exact h
      · exact KeyInv_foldl_processEvent _ _ h
  · intro st fen h
    unfold EngineModel.startAnalysis
    split
    · exact h
    · refine KeyInv_sendCommand _ _ (KeyInv_sendCommand _ _ ?_)
      intro p hp
      cases hp
  · intro st h
    unfold EngineModel.stop
    split
    · exact h
    · refine KeyInv_addOutput _ _ (KeyInv_sendCommand _ _ ?_)
      split
      · exact KeyInv_stopAnalysis _ h
      · exact h
  · intro st ok h
    unfold EngineModel.start
    split
    · exact h
    · split
      · exact h
      · exact KeyInv_addOutput _ _
          (KeyInv_sendCommand _ _ (KeyInv_sendCommand _ _ (KeyInv_sendCommand _ _ h)))
  · intro st h info hmem
    unfold EngineModel.analysisLinesSorted at hmem
    rw [List.mem_mergeSort, List.mem_map] at hmem
    obtain ⟨p, hp, rfl⟩ := hmem
    exact (h p hp).1

theorem analysis_key_invariant_witness :
    KeyInv (EngineModel.new.addOutput "info depth 1 score cp 5 pv e2e4") :=
  analysis_key_invariant.2.1 EngineModel.new "info depth 1 score cp 5 pv e2e4"
    analysis_key_invariant.1

end GpuiChess
